import Mathlib

/-!
Verification of the HTML extraction core of the MacaulayLibraryLookup
repository (module macaulay_library_lookup/parsers.py).

The parsed HTML document is modelled as a tree of nodes; the BeautifulSoup
query primitives used by the code (find_all with tag/attribute/string
filters, find_parent, get_text, the .string property) are embedded as
recursive traversals of that tree.  The concrete regular expressions of the
source are embedded as hand-rolled scanners with Python re semantics
(leftmost search, greedy repetition, case flags as used at each site).

The possibility that the underlying HTML library raises while extracting
data from an element (which the source code guards with try/except in two
places) is modelled by an explicit exception oracle, a predicate on nodes
saying on which elements the operation raises; extraction functions are
then Except-valued and the try/except blocks of the source become the
corresponding handlers.
-/

set_option maxRecDepth 8000

namespace MacaulayLookup

/-! ### Python character and string primitives -/

/-- Python regex whitespace class over the characters the code can meet. -/
def pyIsSpace (c : Char) : Bool :=
  c = ' ' || c = '\t' || c = '\n' || c = '\r' || c = '\x0b' || c = '\x0c'

/-- Python regex word character (ASCII letters, digits, underscore). -/
def isWordChar (c : Char) : Bool := c.isAlpha || c.isDigit || c = '_'

/-- Maximal digit prefix and the remainder (greedy match of a digit run). -/
def takeDigits (l : List Char) : List Char × List Char := l.span Char.isDigit

/-- Drop a maximal whitespace prefix (greedy match of a whitespace run). -/
def dropWs (l : List Char) : List Char := l.dropWhile pyIsSpace

/-- Match a literal case-sensitively, returning the remainder on success. -/
def matchLit : List Char → List Char → Option (List Char)
  | [], l => some l
  | _ :: _, [] => none
  | p :: ps, c :: cs => if p = c then matchLit ps cs else none

/-- Match a literal case-insensitively (ASCII), returning the remainder. -/
def matchLitCI : List Char → List Char → Option (List Char)
  | [], l => some l
  | _ :: _, [] => none
  | p :: ps, c :: cs => if p.toLower = c.toLower then matchLitCI ps cs else none

/-- Python re.search: try an anchored matcher at every start position,
leftmost position first, including the empty suffix at the end. -/
def searchAt {α : Type} (f : List Char → Option α) : List Char → Option α
  | [] => f []
  | c :: t =>
    match f (c :: t) with
    | some a => some a
    | none => searchAt f t

/-- Python re.search that also tracks the character before the current
position, as needed by word-boundary anchors. -/
def searchPrev {α : Type} (f : Option Char → List Char → Option α) :
    Option Char → List Char → Option α
  | prev, [] => f prev []
  | prev, c :: t =>
    match f prev (c :: t) with
    | some a => some a
    | none => searchPrev f (some c) t

/-- Substring test, case-sensitive (re.search of a literal pattern). -/
def isSubstr (sub s : String) : Bool :=
  (searchAt (fun l => matchLit sub.data l) s.data).isSome

/-- Substring test, case-insensitive (re.search of a literal, re.I). -/
def isSubstrCI (sub s : String) : Bool :=
  (searchAt (fun l => matchLitCI sub.data l) s.data).isSome

/-- Python str.strip on a character list. -/
def pyStripL (l : List Char) : List Char :=
  ((l.dropWhile pyIsSpace).reverse.dropWhile pyIsSpace).reverse

/-- Python str.strip. -/
def pyStrip (s : String) : String := String.mk (pyStripL s.data)

/-- Number of words of Python str.split (maximal nonblank runs). -/
def countWordsGo : Bool → List Char → Nat
  | _, [] => 0
  | inWord, c :: t =>
    if pyIsSpace c then countWordsGo false t
    else (if inWord then 0 else 1) + countWordsGo true t

/-- Number of words Python str.split would return. -/
def countWords (l : List Char) : Nat := countWordsGo false l

/-- Numeric value of a digit string, as Python int reads it. -/
def digitsToNat (l : List Char) : Nat :=
  l.foldl (fun n c => n * 10 + (c.toNat - '0'.toNat)) 0

/-- Python int applied to a string (int strips surrounding whitespace). -/
def pyIntNat (s : String) : Nat := digitsToNat (pyStripL s.data)

/-- Python str.isdigit for the ASCII strings the code meets. -/
def pyIsdigit (s : String) : Bool := !s.data.isEmpty && s.data.all Char.isDigit

/-! ### The parsed document model

A node is either an element with a tag name, attributes and children, or a
text node (a NavigableString).  Attribute values are stored as plain
strings; for the class attribute this is the raw attribute text, matched by
substring exactly as the re.search calls of the source do. -/

inductive Node where
  | elem (tag : String) (attrs : List (String × String)) (children : List Node)
  | text (s : String)

/-- Tag name of a node (text nodes have none). -/
def nodeTag : Node → String
  | .elem t _ _ => t
  | .text _ => ""

/-- Attribute lookup (Tag.get / Tag.__getitem__). -/
def attrGet (n : Node) (key : String) : Option String :=
  match n with
  | .elem _ attrs _ => (attrs.find? (fun p => p.1 = key)).map (fun p => p.2)
  | .text _ => none

mutual
/-- All nodes strictly below a node, in document (pre-) order; this is the
search space of find_all and find called on that node. -/
def descendants : Node → List Node
  | .elem _ _ cs => descList cs
  | .text _ => []

/-- All listed nodes and their descendants, in document order. -/
def descList : List Node → List Node
  | [] => []
  | n :: t => n :: (descendants n ++ descList t)
end

mutual
/-- Every node of a forest paired with its ancestor chain (nearest
ancestor first), in document order. -/
def entriesAux (anc : List Node) : List Node → List (Node × List Node)
  | [] => []
  | n :: t => (n, anc) :: (entriesChildren anc n ++ entriesAux anc t)

/-- Entries contributed by the children of one node. -/
def entriesChildren (anc : List Node) : Node → List (Node × List Node)
  | .elem tg a cs => entriesAux (Node.elem tg a cs :: anc) cs
  | .text _ => []
end

/-- Every node strictly below the document root paired with its ancestor
chain (nearest first, ending at the root). -/
def allEntries (soup : Node) : List (Node × List Node) :=
  match soup with
  | .elem tg a cs => entriesAux [Node.elem tg a cs] cs
  | .text _ => []

/-- The BeautifulSoup .string property: the single text child, descending
through chains of single children. -/
def getString : Node → Option String
  | .text s => some s
  | .elem _ _ [c] => getString c
  | .elem _ _ _ => none

mutual
/-- All text-node strings below a node, in document order. -/
def getTexts : Node → List String
  | .elem _ _ cs => getTextsList cs
  | .text s => [s]

/-- Text-node strings of a forest, in document order. -/
def getTextsList : List Node → List String
  | [] => []
  | n :: t => getTexts n ++ getTextsList t
end

/-- Tag.get_text(): concatenation of all text below the node. -/
def getText (n : Node) : String := String.join (getTexts n)

/-- Tag.get_text(strip=True): each fragment stripped, blanks dropped. -/
def getTextStrip (n : Node) : String :=
  String.join (((getTexts n).map pyStrip).filter (fun s => s ≠ ""))

/-! ### The pattern library

Each regular expression of the source is embedded as an anchored scanner
(match at the current position) used under searchAt or the findall
driver.  At every boundary inside these patterns the adjacent character
classes are disjoint, so greedy maximal munch realises the Python
backtracking semantics exactly. -/

/-- Anchored match of the catalog id pattern /asset/(\d+): literal prefix
then a nonempty digit run, capturing the run. -/
def assetPathAt (l : List Char) : Option (String × List Char) :=
  match matchLit "/asset/".data l with
  | none => none
  | some r =>
    let (d, rest) := takeDigits r
    if d.isEmpty then none else some (String.mk d, rest)

/-- catalog_id_pattern.search(s).group(1): first /asset/(\d+) match. -/
def findAssetId (s : String) : Option String :=
  (searchAt assetPathAt s.data).map (fun p => p.1)

/-- Consume one optional double quote (the optional-quote atom of the
script identifier patterns). -/
def dropQuote : List Char → List Char
  | '"' :: t => t
  | l => l

/-- Anchored match of a quoted JSON field pattern such as
the assetId form: literal field name in quotes, colon, optional
whitespace, optional quote, captured digit run, optional quote. -/
def quotedKeyIdAt (key : String) (l : List Char) : Option (String × List Char) :=
  match matchLit ('"' :: key.data ++ ['"', ':']) l with
  | none => none
  | some r1 =>
    match takeDigits (dropQuote (dropWs r1)) with
    | (d, r4) => if d.isEmpty then none else some (String.mk d, dropQuote r4)

/-- Anchored match of the fully qualified asset URL pattern. -/
def mlAssetAt (l : List Char) : Option (String × List Char) :=
  match matchLit "macaulaylibrary.org/asset/".data l with
  | none => none
  | some r =>
    let (d, rest) := takeDigits r
    if d.isEmpty then none else some (String.mk d, rest)

/-- re.findall driver: repeatedly take the leftmost match and resume after
its end (non-overlapping matches).  Every pattern used consumes at least
one character, so the fuel (list length + 1) is never exhausted. -/
def findAllF {α : Type} (f : List Char → Option (α × List Char)) :
    Nat → List Char → List α
  | 0, _ => []
  | fuel + 1, l =>
    match searchAt f l with
    | none => []
    | some (cap, rest) => cap :: findAllF f fuel rest

/-- re.findall of a single-capture pattern over a string. -/
def findAll {α : Type} (f : List Char → Option (α × List Char)) (s : String) :
    List α :=
  findAllF f (s.data.length + 1) s.data

/-- The five identifier patterns of extract_records_from_script, tried in
the order of the source, with all their matches concatenated. -/
def scriptMatches (content : String) : List String :=
  findAll (quotedKeyIdAt "assetId") content ++
  findAll (quotedKeyIdAt "catalogId") content ++
  findAll (quotedKeyIdAt "id") content ++
  findAll assetPathAt content ++
  findAll mlAssetAt content

/-- Anchored match of the species shape pattern: one uppercase letter, a
nonempty lowercase run, a space, a nonempty lowercase run. -/
def speciesShapeAt (l : List Char) : Option Unit :=
  match l with
  | [] => none
  | c :: t =>
    if c.isUpper then
      let (low1, r1) := t.span Char.isLower
      if low1.isEmpty then none
      else
        match r1 with
        | ' ' :: r2 =>
          let (low2, _) := r2.span Char.isLower
          if low2.isEmpty then none else some ()
        | _ => none
    else none

/-- Whether a text fragment matches the species shape regex anywhere. -/
def speciesTextMatches (s : String) : Bool :=
  (searchAt speciesShapeAt s.data).isSome

/-- Scan for a case-insensitive literal starting at a position reachable
without crossing a newline (the dot of the class gap patterns does not
match newlines). -/
def searchBeforeNl (word : List Char) : List Char → Bool
  | [] => (matchLitCI word []).isSome
  | c :: t => (matchLitCI word (c :: t)).isSome || (c ≠ '\n' && searchBeforeNl word t)

/-- re.search of a class-gap pattern (the word class, any non-newline gap,
then the given word; case-insensitive) against an attribute value. -/
def classGapMatch (word : String) (s : String) : Bool :=
  (searchAt (fun l =>
    match matchLitCI "class".data l with
    | some r1 => if searchBeforeNl word.data r1 then some () else none
    | none => none) s.data).isSome

/-- Word-boundary test against the preceding character. -/
def boundaryOk (prev : Option Char) : Bool :=
  match prev with
  | none => true
  | some c => !isWordChar c

/-- Word-boundary test at the remainder after a match. -/
def endBoundary (l : List Char) : Bool :=
  match l with
  | [] => true
  | c :: _ => !isWordChar c

/-- Anchored match of the slash date pattern: word boundary, one or two
digits, slash, one or two digits, slash, exactly four digits, word
boundary; the result is the whole matched text. -/
def dateSlashAt (prev : Option Char) (l : List Char) : Option String :=
  if !boundaryOk prev then none
  else
    let (d1, r1) := takeDigits l
    if d1.isEmpty || decide (2 < d1.length) then none
    else
      match r1 with
      | '/' :: r2 =>
        let (d2, r3) := takeDigits r2
        if d2.isEmpty || decide (2 < d2.length) then none
        else
          match r3 with
          | '/' :: r4 =>
            let (d3, r5) := takeDigits r4
            if d3.length = 4 && endBoundary r5 then
              some (String.mk (d1 ++ '/' :: (d2 ++ '/' :: d3)))
            else none
          | _ => none
      | _ => none

/-- Anchored match of the ISO date pattern: word boundary, four digits,
dash, two digits, dash, two digits, word boundary. -/
def dateIsoAt (prev : Option Char) (l : List Char) : Option String :=
  if !boundaryOk prev then none
  else
    let (d1, r1) := takeDigits l
    if d1.length = 4 then
      match r1 with
      | '-' :: r2 =>
        let (d2, r3) := takeDigits r2
        if d2.length = 2 then
          match r3 with
          | '-' :: r4 =>
            let (d3, r5) := takeDigits r4
            if d3.length = 2 && endBoundary r5 then
              some (String.mk (d1 ++ '-' :: (d2 ++ '-' :: d3)))
            else none
          | _ => none
        else none
      | _ => none
    else none

/-- Anchored match of the long date pattern: word boundary, capitalized
month word, space, one or two digits, comma, space, four digits, word
boundary. -/
def dateLongAt (prev : Option Char) (l : List Char) : Option String :=
  if !boundaryOk prev then none
  else
    match l with
    | [] => none
    | c :: t =>
      if c.isUpper then
        let (low, r1) := t.span Char.isLower
        if low.isEmpty then none
        else
          match r1 with
          | ' ' :: r2 =>
            let (d1, r3) := takeDigits r2
            if d1.isEmpty || decide (2 < d1.length) then none
            else
              match r3 with
              | ',' :: ' ' :: r4 =>
                let (d2, r5) := takeDigits r4
                if d2.length = 4 && endBoundary r5 then
                  some (String.mk (c :: (low ++ ' ' :: (d1 ++ ',' :: ' ' :: d2))))
                else none
              | _ => none
          | _ => none
      else none

/-- Anchored match of the capitalized name group (two words of letters;
the patterns using it carry re.I, which turns both letter classes into
plain letter classes). -/
def nameCIAt (l : List Char) : Option (String × List Char) :=
  match l with
  | [] => none
  | c1 :: t1 =>
    if c1.isAlpha then
      let (w1, r1) := t1.span Char.isAlpha
      if w1.isEmpty then none
      else
        match r1 with
        | ' ' :: c2 :: r2 =>
          if c2.isAlpha then
            let (w2, r3) := r2.span Char.isAlpha
            if w2.isEmpty then none
            else some (String.mk (c1 :: (w1 ++ ' ' :: c2 :: w2)), r3)
          else none
        | _ => none
    else none

/-- Anchored match of the recordist by-pattern (case-insensitive): the
word by, some whitespace, captured name. -/
def recordistByAt (l : List Char) : Option String :=
  match matchLitCI "by".data l with
  | none => none
  | some r1 =>
    let r2 := dropWs r1
    if r2 = r1 then none
    else (nameCIAt r2).map (fun p => p.1)

/-- Anchored match of the recordist colon pattern (case-insensitive):
the word recordist, colons or whitespace, captured name. -/
def recordistColonAt (l : List Char) : Option String :=
  match matchLitCI "recordist".data l with
  | none => none
  | some r1 =>
    let (sep, r2) := r1.span (fun c => c = ':' || pyIsSpace c)
    if sep.isEmpty then none
    else (nameCIAt r2).map (fun p => p.1)

/-- Anchored match of the recorded-by pattern (case-insensitive). -/
def recordedByAt (l : List Char) : Option String :=
  match matchLitCI "recorded by".data l with
  | none => none
  | some r1 =>
    let r2 := dropWs r1
    if r2 = r1 then none
    else (nameCIAt r2).map (fun p => p.1)

/-! ### Data model -/

/-- The search-parameter keys the extraction core reads.  A missing key of
the Python dict is a none field here; dict.get with a default becomes
Option.getD. -/
structure SearchParams where
  mediaType : Option String := none
  regionCode : Option String := none
  beginMonth : Option String := none
  tag : Option String := none
  taxonCode : Option String := none
deriving DecidableEq

/-- A media record as built by the catalog-page extractor. -/
structure MediaRecord where
  catalog_id : String
  url : String
  media_type : String
  region : String
  search_month : String
  search_tag : String
  species_code : String
  common_name : String
  scientific_name : String
  location : String
  date : String
  recordist : String
deriving DecidableEq

/-- The record dict as first constructed, before any metadata update
(identical text in all three strategies of the source). -/
def mkBaseRecord (catalog_id : String) (p : SearchParams) : MediaRecord :=
  { catalog_id := catalog_id
    url := "https://macaulaylibrary.org/asset/" ++ catalog_id
    media_type := p.mediaType.getD "unknown"
    region := p.regionCode.getD ""
    search_month := p.beginMonth.getD ""
    search_tag := p.tag.getD ""
    species_code := p.taxonCode.getD ""
    common_name := ""
    scientific_name := ""
    location := ""
    date := ""
    recordist := "" }

/-- The metadata dict of extract_metadata_from_container: each key is
present only when its heuristic matched. -/
structure ContainerMetadata where
  common_name : Option String := none
  location : Option String := none
  date : Option String := none
  recordist : Option String := none
deriving DecidableEq

/-- record.update(metadata): present metadata keys overwrite the record
field, absent keys leave it unchanged. -/
def applyMetadata (r : MediaRecord) (m : ContainerMetadata) : MediaRecord :=
  { r with
    common_name := m.common_name.getD r.common_name
    location := m.location.getD r.location
    date := m.date.getD r.date
    recordist := m.recordist.getD r.recordist }

/-! ### Metadata from a container -/

/-- The common-name heuristic: first text node below the container that
matches the species shape regex and splits into at least two words; the
stripped text is taken. -/
def commonNameMeta (c : Node) : Option String :=
  (((getTexts c).filter speciesTextMatches).find?
      (fun s => decide (2 ≤ countWords (pyStrip s).data))).map pyStrip

/-- find of the first descendant whose class attribute matches one
class-gap pattern. -/
def findByClassGap (c : Node) (word : String) : Option Node :=
  (descendants c).find? (fun n =>
    match attrGet n "class" with
    | some v => classGapMatch word v
    | none => false)

/-- The location heuristic: the three class-gap patterns in priority
order, first hit wins, taking the stripped text of the element found. -/
def locationMeta (c : Node) : Option String :=
  match findByClassGap c "location" with
  | some e => some (getTextStrip e)
  | none =>
    match findByClassGap c "place" with
    | some e => some (getTextStrip e)
    | none =>
      match findByClassGap c "locale" with
      | some e => some (getTextStrip e)
      | none => none

/-- The date heuristic: the three date patterns in priority order over the
flattened container text, first match wins. -/
def dateMeta (c : Node) : Option String :=
  let txt := (getText c).data
  match searchPrev dateSlashAt none txt with
  | some d => some d
  | none =>
    match searchPrev dateIsoAt none txt with
    | some d => some d
    | none => searchPrev dateLongAt none txt

/-- The recordist heuristic: the three recordist patterns in priority
order over the flattened container text, capturing the name group. -/
def recordistMeta (c : Node) : Option String :=
  let txt := (getText c).data
  match searchAt recordistByAt txt with
  | some nm => some nm
  | none =>
    match searchAt recordistColonAt txt with
    | some nm => some nm
    | none => searchAt recordedByAt txt

/-- extract_metadata_from_container of the source. -/
def extract_metadata_from_container (c : Node) : ContainerMetadata :=
  { common_name := commonNameMeta c
    location := locationMeta c
    date := dateMeta c
    recordist := recordistMeta c }

/-- The same helper under the exception oracle: on a container the oracle
marks, the underlying library raises instead of returning. -/
def extract_metadata_from_containerE (exn : Node → Bool) (c : Node) :
    Except Unit ContainerMetadata :=
  if exn c then .error () else .ok (extract_metadata_from_container c)

/-! ### The three extraction strategies -/

/-- link.find_parent on the ancestor chain of a link. -/
def find_parent_container (anc : List Node) : Option Node :=
  anc.find? (fun n => nodeTag n = "div" || nodeTag n = "article" || nodeTag n = "li")

/-- extract_record_from_link: base record, metadata from the nearest
ancestor container when there is one; the try/except of the source turns
a raise during metadata extraction into a skipped candidate (none). -/
def extract_record_from_linkE (exn : Node → Bool) (anc : List Node)
    (catalog_id : String) (p : SearchParams) : Option MediaRecord :=
  let record := mkBaseRecord catalog_id p
  match find_parent_container anc with
  | none => some record
  | some c =>
    match extract_metadata_from_containerE exn c with
    | .ok m => some (applyMetadata record m)
    | .error _ => none

/-- The anchor filter of method 1: an a element whose href attribute the
catalog id pattern matches. -/
def isAssetLink (n : Node) : Bool :=
  nodeTag n = "a" && ((attrGet n "href").bind findAssetId).isSome

/-- Asset links of the page, each with its ancestor chain. -/
def assetLinkEntries (soup : Node) : List (Node × List Node) :=
  (allEntries soup).filter (fun e => isAssetLink e.1)

/-- The catalog id the source reads from a matched link href. -/
def linkCatalogId (n : Node) : String :=
  ((attrGet n "href").bind findAssetId).getD ""

/-- extract_records_from_script: for every pattern, for every match, keep
it when it is an all-digit string of length at least six, appending the
records in loop order. -/
def extract_records_from_script (content : String) (p : SearchParams) :
    List MediaRecord :=
  (scriptMatches content).foldl
    (fun recs m =>
      if pyIsdigit m && decide (6 ≤ m.length) then recs ++ [mkBaseRecord m p]
      else recs) []

/-- Python truthiness of an optional attribute: present and non-empty. -/
def truthyAttr (c : Node) (key : String) : Option String :=
  match attrGet c key with
  | some v => if v = "" then none else some v
  | none => none

/-- The anchor-link fallback of the id resolution: the first matching
link inside the container, searched again with the catalog id pattern. -/
def containerLinkId (c : Node) : Option String :=
  match (descendants c).find? isAssetLink with
  | some lnk => (attrGet lnk "href").bind findAssetId
  | none => none

/-- The catalog id resolution of extract_record_from_container: the
data-asset-id attribute when truthy, else data-catalog-id when truthy,
else the first matching anchor link inside the container. -/
def resolve_container_id (c : Node) : Option String :=
  match truthyAttr c "data-asset-id" with
  | some v => some v
  | none =>
    match truthyAttr c "data-catalog-id" with
    | some v => some v
    | none => containerLinkId c

/-- extract_record_from_container: containers resolving to no id are
skipped; the metadata step has no exception handler here, so a raise
propagates to the caller. -/
def extract_record_from_containerE (exn : Node → Bool) (c : Node)
    (p : SearchParams) : Except Unit (Option MediaRecord) :=
  match resolve_container_id c with
  | none => .ok none
  | some cid =>
    match extract_metadata_from_containerE exn c with
    | .ok m => .ok (some (applyMetadata (mkBaseRecord cid p) m))
    | .error e => .error e

/-- The container filter of method 3: a div or article whose class
attribute matches the media, asset or result pattern. -/
def isMediaContainer (n : Node) : Bool :=
  (nodeTag n = "div" || nodeTag n = "article") &&
    (match attrGet n "class" with
     | some v => isSubstr "media" v || isSubstr "asset" v || isSubstr "result" v
     | none => false)

/-- Containers scanned by method 3, in document order. -/
def mediaContainers (soup : Node) : List Node :=
  (descendants soup).filter isMediaContainer

/-- Script tags of the page. -/
def scriptTags (soup : Node) : List Node :=
  (descendants soup).filter (fun n => nodeTag n = "script")

/-! ### Deduplication and the catalog-page extractor -/

/-- The dedup loop of parse_catalog_page with its seen set made explicit. -/
def dedupeGo (seen : List String) : List MediaRecord → List MediaRecord
  | [] => []
  | r :: t =>
    if r.catalog_id ∈ seen then dedupeGo seen t
    else r :: dedupeGo (r.catalog_id :: seen) t

/-- Deduplication by catalog_id, keeping first occurrences. -/
def dedupeRecords (l : List MediaRecord) : List MediaRecord := dedupeGo [] l

/-- The method 3 loop of parse_catalog_page: extract each container in
document order, appending non-empty results; the first raise aborts the
whole loop, exactly as an uncaught Python exception would. -/
def collectContainersE (exn : Node → Bool) (p : SearchParams) :
    List Node → Except Unit (List MediaRecord)
  | [] => .ok []
  | c :: t =>
    match extract_record_from_containerE exn c p with
    | .error e => .error e
    | .ok none => collectContainersE exn p t
    | .ok (some r) =>
      match collectContainersE exn p t with
      | .error e => .error e
      | .ok l => .ok (r :: l)

/-- parse_catalog_page: the three strategies in source order, their
candidates concatenated, then deduplicated.  Only the anchor-link
strategy catches per-candidate failures; a raise inside the structural
container strategy aborts the whole call (error). -/
def parse_catalog_pageE (exn : Node → Bool) (soup : Node) (p : SearchParams) :
    Except Unit (List MediaRecord) :=
  let m1 := (assetLinkEntries soup).filterMap
    (fun e => extract_record_from_linkE exn e.2 (linkCatalogId e.1) p)
  let m2 := ((scriptTags soup).map
    (fun s =>
      match getString s with
      | some str => if str = "" then [] else extract_records_from_script str p
      | none => [])).flatten
  match collectContainersE exn p (mediaContainers soup) with
  | .error e => .error e
  | .ok m3 => .ok (dedupeRecords (m1 ++ m2 ++ m3))

/-- parse_catalog_page when no library operation raises. -/
def parse_catalog_page (soup : Node) (p : SearchParams) : List MediaRecord :=
  match parse_catalog_pageE (fun _ => false) soup p with
  | .ok l => l
  | .error _ => []

/-! ### Pagination inspector -/

/-- The pagination_info dict of detect_pagination_info. -/
structure PaginationInfo where
  has_next_page : Bool
  total_results : Option Nat
  current_page : Option Nat
  total_pages : Option Nat
  results_per_page : Option Nat
deriving DecidableEq

/-- First attribute pattern: class contains pagination (case-insensitive). -/
def pagClassPat (n : Node) : Bool :=
  match attrGet n "class" with
  | some v => isSubstrCI "pagination" v
  | none => false

/-- Second attribute pattern: class contains pager. -/
def pagerClassPat (n : Node) : Bool :=
  match attrGet n "class" with
  | some v => isSubstrCI "pager" v
  | none => false

/-- Third attribute pattern: class contains page-nav. -/
def pageNavClassPat (n : Node) : Bool :=
  match attrGet n "class" with
  | some v => isSubstrCI "page-nav" v
  | none => false

/-- Fourth attribute pattern: role equals navigation. -/
def rolePat (n : Node) : Bool :=
  match attrGet n "role" with
  | some v => v = "navigation"
  | none => false

/-- Fifth attribute pattern: aria-label contains pagination. -/
def ariaPat (n : Node) : Bool :=
  match attrGet n "aria-label" with
  | some v => isSubstrCI "pagination" v
  | none => false

/-- The pagination container: the five attribute patterns in source
order, each looked up with find (first element in document order); the
loop breaks at the first pattern that matches any element. -/
def pagination_container (soup : Node) : Option Node :=
  match (descendants soup).find? pagClassPat with
  | some c => some c
  | none =>
    match (descendants soup).find? pagerClassPat with
    | some c => some c
    | none =>
      match (descendants soup).find? pageNavClassPat with
      | some c => some c
      | none =>
        match (descendants soup).find? rolePat with
        | some c => some c
        | none => (descendants soup).find? ariaPat

/-- The next-indicator string filter: the element string matches the
next, more or greater-than alternative, case-insensitively. -/
def nextStringMatches (s : String) : Bool :=
  isSubstrCI "next" s || isSubstrCI "more" s || isSubstr ">" s

/-- find_all of a or button elements whose string is a next indicator. -/
def nextIndicators (c : Node) : List Node :=
  (descendants c).filter (fun n =>
    (nodeTag n = "a" || nodeTag n = "button") &&
      (match getString n with
       | some s => nextStringMatches s
       | none => false))

/-- The anchored-digits string pattern of the page-number links: with
re.search and no multiline flag it accepts a digit run, optionally
followed by one final newline. -/
def fullDigitsMatches (s : String) : Bool :=
  match s.data with
  | [] => false
  | l =>
    l.all Char.isDigit ||
      (match l.getLast? with
       | some '\n' => !l.dropLast.isEmpty && l.dropLast.all Char.isDigit
       | _ => false)

/-- find_all of a elements whose string is purely numeric. -/
def pageLinks (c : Node) : List Node :=
  (descendants c).filter (fun n =>
    nodeTag n = "a" &&
      (match getString n with
       | some s => fullDigitsMatches s
       | none => false))

/-- Python max over a nonempty list of page numbers. -/
def pageNumbersMax : List Nat → Option Nat
  | [] => none
  | h :: t => some (t.foldl Nat.max h)

/-- Anchored match of the first result-count pattern: digits, optional
of-digits group, the word results; case-insensitive, greedy whitespace. -/
def countPat1At (l : List Char) : Option (String × Option String) :=
  let (d1, r1) := takeDigits l
  if d1.isEmpty then none
  else
    let r2 := dropWs r1
    match matchLitCI "of".data r2 with
    | some r3 =>
      let (d2, r5) := takeDigits (dropWs r3)
      if d2.isEmpty then none
      else if (matchLitCI "result".data (dropWs r5)).isSome then
        some (String.mk d1, some (String.mk d2))
      else none
    | none =>
      if (matchLitCI "result".data r2).isSome then some (String.mk d1, none)
      else none

/-- Anchored match of the second result-count pattern: the word showing,
then the body of the first pattern. -/
def countPat2At (l : List Char) : Option (String × Option String) :=
  match matchLitCI "showing".data l with
  | some r => countPat1At (dropWs r)
  | none => none

/-- Anchored match of the third result-count pattern: digits, dash,
digits, of, digits, results. -/
def countPat3At (l : List Char) : Option (String × String × String) :=
  let (d1, r1) := takeDigits l
  if d1.isEmpty then none
  else
    match dropWs r1 with
    | '-' :: r2 =>
      let (d2, r3) := takeDigits (dropWs r2)
      if d2.isEmpty then none
      else
        match matchLitCI "of".data (dropWs r3) with
        | some r4 =>
          let (d3, r5) := takeDigits (dropWs r4)
          if d3.isEmpty then none
          else if (matchLitCI "result".data (dropWs r5)).isSome then
            some (String.mk d1, String.mk d2, String.mk d3)
          else none
        | none => none
    | _ => none

/-- The result-count scan of detect_pagination_info: the three patterns in
source order, stopping at the first that matches; the second captured
group of the match, when present, becomes the total. -/
def total_results_of_text (s : String) : Option Nat :=
  match searchAt countPat1At s.data with
  | some (_, g2) => g2.map pyIntNat
  | none =>
    match searchAt countPat2At s.data with
    | some (_, g2) => g2.map pyIntNat
    | none =>
      match searchAt countPat3At s.data with
      | some (_, g2, _) => some (pyIntNat g2)
      | none => none

/-- detect_pagination_info of the source. -/
def detect_pagination_info (soup : Node) : PaginationInfo :=
  let base : PaginationInfo :=
    { has_next_page := false, total_results := none, current_page := none,
      total_pages := none, results_per_page := none }
  let withPag :=
    match pagination_container soup with
    | none => base
    | some c =>
      let b1 := { base with has_next_page := !(nextIndicators c).isEmpty }
      match pageLinks c with
      | [] => b1
      | ls => { b1 with
          total_pages := pageNumbersMax (ls.map (fun l => pyIntNat (getText l))) }
  { withPag with total_results := total_results_of_text (getText soup) }

/-! ### Detail-page extractor -/

/-- The extended record of parse_asset_page. -/
structure AssetRecord where
  catalog_id : String
  url : String
  common_name : String
  scientific_name : String
  media_type : String
  location : String
  date : String
  recordist : String
  quality : String
  tags : List String
  description : String
deriving DecidableEq

/-- The record dict as initialised at the top of parse_asset_page. -/
def initAssetRecord (catalog_id : String) : AssetRecord :=
  { catalog_id := catalog_id
    url := "https://macaulaylibrary.org/asset/" ++ catalog_id
    common_name := ""
    scientific_name := ""
    media_type := ""
    location := ""
    date := ""
    recordist := ""
    quality := ""
    tags := []
    description := "" }

/-- soup.find of an h1, else the first element whose class contains
species or title (case-sensitive). -/
def speciesElem (soup : Node) : Option Node :=
  match (descendants soup).find? (fun n => nodeTag n = "h1") with
  | some e => some e
  | none =>
    (descendants soup).find? (fun n =>
      match attrGet n "class" with
      | some v => isSubstr "species" v || isSubstr "title" v
      | none => false)

/-- soup.find of the first element whose class contains scientific or
latin. -/
def sciNameElem (soup : Node) : Option Node :=
  (descendants soup).find? (fun n =>
    match attrGet n "class" with
    | some v => isSubstr "scientific" v || isSubstr "latin" v
    | none => false)

/-- find_all of meta, span or div elements carrying a property attribute
(the catch-all pattern matches every value). -/
def metaElems (soup : Node) : List Node :=
  (descendants soup).filter (fun n =>
    (nodeTag n = "meta" || nodeTag n = "span" || nodeTag n = "div") &&
      (attrGet n "property").isSome)

/-- get_text(strip=True) under the exception oracle. -/
def getTextStripE (exn : Node → Bool) (n : Node) : Except Unit String :=
  if exn n then .error () else .ok (getTextStrip n)

/-- The lowered property attribute value of a meta element. -/
def propOf (n : Node) : String := ((attrGet n "property").getD "").toLower

/-- Whether a property element matches any of the categories the loop
reads text for. -/
def metaCatMatch (e : Node) : Bool :=
  isSubstr "location" (propOf e) || isSubstr "date" (propOf e) ||
    (isSubstr "creator" (propOf e) || isSubstr "author" (propOf e))

/-- The property loop of parse_asset_page: location, date and
creator/author properties update the record in document order; the
fallback text read can raise whenever the branch is taken. -/
def metaLoopE (exn : Node → Bool) : List Node → AssetRecord → Except Unit AssetRecord
  | [], r => .ok r
  | e :: t, r =>
    if isSubstr "location" (propOf e) then
      match getTextStripE exn e with
      | .error u => .error u
      | .ok txt => metaLoopE exn t { r with location := (attrGet e "content").getD txt }
    else if isSubstr "date" (propOf e) then
      match getTextStripE exn e with
      | .error u => .error u
      | .ok txt => metaLoopE exn t { r with date := (attrGet e "content").getD txt }
    else if isSubstr "creator" (propOf e) || isSubstr "author" (propOf e) then
      match getTextStripE exn e with
      | .error u => .error u
      | .ok txt => metaLoopE exn t { r with recordist := (attrGet e "content").getD txt }
    else metaLoopE exn t r

/-- The species extraction step of parse_asset_page. -/
def speciesStepE (exn : Node → Bool) (soup : Node) (r : AssetRecord) :
    Except Unit AssetRecord :=
  match speciesElem soup with
  | none => .ok r
  | some e =>
    match getTextStripE exn e with
    | .error u => .error u
    | .ok t => .ok { r with common_name := t }

/-- The scientific-name extraction step of parse_asset_page. -/
def sciStepE (exn : Node → Bool) (soup : Node) (r : AssetRecord) :
    Except Unit AssetRecord :=
  match sciNameElem soup with
  | none => .ok r
  | some e =>
    match getTextStripE exn e with
    | .error u => .error u
    | .ok t => .ok { r with scientific_name := t }

/-- The try-block body of parse_asset_page. -/
def parse_asset_bodyE (exn : Node → Bool) (soup : Node) (catalog_id : String) :
    Except Unit AssetRecord :=
  match speciesStepE exn soup (initAssetRecord catalog_id) with
  | .error u => .error u
  | .ok r1 =>
    match sciStepE exn soup r1 with
    | .error u => .error u
    | .ok r2 => metaLoopE exn (metaElems soup) r2

/-- parse_asset_page: the whole-call try/except returns the absent signal
on any raise inside the body. -/
def parse_asset_pageE (exn : Node → Bool) (soup : Node) (catalog_id : String) :
    Option AssetRecord :=
  match parse_asset_bodyE exn soup catalog_id with
  | .ok r => some r
  | .error _ => none

/-- parse_asset_page when no library operation raises. -/
def parse_asset_page (soup : Node) (catalog_id : String) : Option AssetRecord :=
  parse_asset_pageE (fun _ => false) soup catalog_id

/-- The elements whose text parse_asset_page reads: the species element,
the scientific-name element, and every property element one of whose
category substrings matches; a raise on any of them aborts the body. -/
def assetReadElems (soup : Node) : List Node :=
  (speciesElem soup).toList ++ (sciNameElem soup).toList ++
    (metaElems soup).filter metaCatMatch

/-! ### Lemmas about the scanners -/

theorem searchAt_eq_some {α : Type} (f : List Char → Option α) (l : List Char) (a : α)
    (h : searchAt f l = some a) : ∃ l', l' <:+ l ∧ f l' = some a := by
  induction l with
  | nil => exact ⟨[], List.suffix_refl [], h⟩
  | cons c t ih =>
    rw [searchAt] at h
    cases hf : f (c :: t) with
    | some b =>
      rw [hf] at h
      exact ⟨c :: t, List.suffix_refl _, by rw [hf]; exact h⟩
    | none =>
      rw [hf] at h
      obtain ⟨l', hs, hf'⟩ := ih h
      exact ⟨l', hs.trans (List.suffix_cons c t), hf'⟩

theorem searchAt_isSome_of_suffix {α : Type} (f : List Char → Option α)
    {l l' : List Char} {a : α} (hs : l' <:+ l) (hf : f l' = some a) :
    (searchAt f l).isSome = true := by
  induction l with
  | nil =>
    rw [List.suffix_nil] at hs
    subst hs
    simp [searchAt, hf]
  | cons c t ih =>
    rw [List.suffix_cons_iff] at hs
    rw [searchAt]
    rcases hs with hs | hs
    · subst hs
      rw [hf]
      rfl
    · cases hg : f (c :: t) with
      | some b => rfl
      | none => exact ih hs

theorem dropWhile_isSuffix (p : Char → Bool) (l : List Char) :
    l.dropWhile p <:+ l :=
  ⟨l.takeWhile p, l.takeWhile_append_dropWhile p⟩

theorem takeDigits_snd_isSuffix (l : List Char) : (takeDigits l).2 <:+ l := by
  rw [takeDigits, List.span_eq_take_drop]
  exact dropWhile_isSuffix _ l

theorem dropWs_isSuffix (l : List Char) : dropWs l <:+ l :=
  dropWhile_isSuffix _ l

theorem takeDigits_all_digit (l : List Char) : ∀ c ∈ (takeDigits l).1, c.isDigit := by
  rw [takeDigits, List.span_eq_take_drop]
  intro c hc
  exact List.mem_takeWhile_imp hc

/-! ### Lemmas about deduplication (the seen-set loop) -/

theorem dedupeGo_sublist (seen : List String) (l : List MediaRecord) :
    List.Sublist (dedupeGo seen l) l := by
  induction l generalizing seen with
  | nil => simp [dedupeGo]
  | cons x t ih =>
    rw [dedupeGo]
    by_cases hx : x.catalog_id ∈ seen
    · rw [if_pos hx]
      exact (ih seen).cons x
    · rw [if_neg hx]
      exact (ih (x.catalog_id :: seen)).cons₂ x

theorem mem_dedupeGo (seen : List String) (l : List MediaRecord) (r : MediaRecord) :
    r ∈ dedupeGo seen l ↔
      r.catalog_id ∉ seen ∧
        ∃ l1 l2, l = l1 ++ r :: l2 ∧ r.catalog_id ∉ l1.map MediaRecord.catalog_id := by
  induction l generalizing seen with
  | nil =>
    simp only [dedupeGo, List.not_mem_nil, false_iff, not_and]
    intro _ h
    obtain ⟨l1, l2, heq, _⟩ := h
    exact absurd heq.symm (List.append_ne_nil_of_right_ne_nil l1 (List.cons_ne_nil r l2))
  | cons x t ih =>
    rw [dedupeGo]
    by_cases hx : x.catalog_id ∈ seen
    · rw [if_pos hx, ih]
      constructor
      · rintro ⟨hn, l1, l2, heq, hl1⟩
        refine ⟨hn, x :: l1, l2, by rw [heq]; rfl, ?_⟩
        simp only [List.map_cons, List.mem_cons, not_or]
        refine ⟨fun hid => hn (hid ▸ hx), hl1⟩
      · rintro ⟨hn, l1, l2, heq, hl1⟩
        cases l1 with
        | nil =>
          simp only [List.nil_append, List.cons.injEq] at heq
          exact absurd hx (heq.1 ▸ hn)
        | cons y l1t =>
          simp only [List.cons_append, List.cons.injEq] at heq
          obtain ⟨hy, heq2⟩ := heq
          simp only [List.map_cons, List.mem_cons, not_or] at hl1
          exact ⟨hn, l1t, l2, heq2, hl1.2⟩
    · rw [if_neg hx]
      simp only [List.mem_cons, ih]
      constructor
      · rintro (hr | ⟨hn, l1, l2, heq, hl1⟩)
        · subst hr
          exact ⟨hx, [], t, rfl, by simp⟩
        · simp only [List.mem_cons, not_or] at hn
          refine ⟨hn.2, x :: l1, l2, by rw [heq]; rfl, ?_⟩
          simp only [List.map_cons, List.mem_cons, not_or]
          exact ⟨hn.1, hl1⟩
      · rintro ⟨hn, l1, l2, heq, hl1⟩
        cases l1 with
        | nil =>
          simp only [List.nil_append, List.cons.injEq] at heq
          exact Or.inl heq.1.symm
        | cons y l1t =>
          simp only [List.cons_append, List.cons.injEq] at heq
          obtain ⟨hy, heq2⟩ := heq
          simp only [List.map_cons, List.mem_cons, not_or] at hl1
          refine Or.inr ⟨?_, l1t, l2, heq2, hl1.2⟩
          simp only [List.mem_cons, not_or]
          exact ⟨hy ▸ hl1.1, hn⟩

theorem dedupeGo_ids_nodup (seen : List String) (l : List MediaRecord) :
    ((dedupeGo seen l).map MediaRecord.catalog_id).Nodup ∧
      ∀ r ∈ dedupeGo seen l, r.catalog_id ∉ seen := by
  induction l generalizing seen with
  | nil => simp [dedupeGo]
  | cons x t ih =>
    rw [dedupeGo]
    by_cases hx : x.catalog_id ∈ seen
    · rw [if_pos hx]
      exact ih seen
    · rw [if_neg hx]
      obtain ⟨hnd, hns⟩ := ih (x.catalog_id :: seen)
      refine ⟨?_, ?_⟩
      · simp only [List.map_cons, List.nodup_cons]
        refine ⟨?_, hnd⟩
        intro hmem
        obtain ⟨r, hr, hid⟩ := List.mem_map.mp hmem
        exact hns r hr (hid ▸ List.mem_cons_self _ _)
      · intro r hr
        rcases List.mem_cons.mp hr with h | h
        · exact h ▸ hx
        · intro hrs
          exact hns r h (List.mem_cons_of_mem _ hrs)

theorem dedupeGo_fixed (seen : List String) (l : List MediaRecord)
    (hd : (l.map MediaRecord.catalog_id).Nodup)
    (hs : ∀ r ∈ l, r.catalog_id ∉ seen) : dedupeGo seen l = l := by
  induction l generalizing seen with
  | nil => simp [dedupeGo]
  | cons x t ih =>
    rw [dedupeGo, if_neg (hs x (List.mem_cons_self x t))]
    simp only [List.map_cons, List.nodup_cons] at hd
    congr 1
    refine ih (x.catalog_id :: seen) hd.2 ?_
    intro r hr
    simp only [List.mem_cons, not_or]
    refine ⟨?_, hs r (List.mem_cons_of_mem x hr)⟩
    intro hid
    exact hd.1 (hid ▸ List.mem_map_of_mem MediaRecord.catalog_id hr)

theorem dedupeRecords_idem (l : List MediaRecord) :
    dedupeRecords (dedupeRecords l) = dedupeRecords l := by
  obtain ⟨hnd, hns⟩ := dedupeGo_ids_nodup [] l
  exact dedupeGo_fixed [] (dedupeGo [] l) hnd (fun r hr => List.not_mem_nil _)

/-! ### Shape of the matcher outputs -/

theorem assetPathAt_shape {l : List Char} {d : String} {rest : List Char}
    (h : assetPathAt l = some (d, rest)) :
    d ≠ "" ∧ d.data.all Char.isDigit = true := by
  rw [assetPathAt] at h
  split at h
  · exact absurd h (by simp)
  · rename_i r hm
    rcases htd : takeDigits r with ⟨dl, r2⟩
    rw [htd] at h
    simp only [] at h
    by_cases he : dl.isEmpty
    · rw [if_pos he] at h
      exact absurd h (by simp)
    · rw [if_neg he] at h
      simp only [Option.some.injEq, Prod.mk.injEq] at h
      obtain ⟨hd, _⟩ := h
      refine ⟨?_, ?_⟩
      · intro hempty
        apply he
        have : dl = [] := by
          have h2 := congrArg String.data (hd.trans hempty)
          simpa using h2
        simp [this]
      · rw [← hd]
        simp only [List.all_eq_true]
        intro c hc
        have : c ∈ (takeDigits r).1 := by rw [htd]; exact hc
        exact takeDigits_all_digit r c this

theorem findAssetId_shape {s d : String} (h : findAssetId s = some d) :
    d ≠ "" ∧ d.data.all Char.isDigit = true := by
  rw [findAssetId] at h
  rcases hs : searchAt assetPathAt s.data with _ | pr
  · rw [hs] at h; simp at h
  · rw [hs] at h
    simp only [Option.map_some', Option.some.injEq] at h
    obtain ⟨l2, _, hf⟩ := searchAt_eq_some assetPathAt s.data pr hs
    rcases pr with ⟨d0, rest0⟩
    obtain ⟨hne, hdig⟩ := assetPathAt_shape hf
    exact h ▸ ⟨hne, hdig⟩

theorem quotedKeyIdAt_shape {key : String} {l : List Char} {d : String} {rest : List Char}
    (h : quotedKeyIdAt key l = some (d, rest)) :
    d ≠ "" ∧ d.data.all Char.isDigit = true := by
  rw [quotedKeyIdAt] at h
  split at h
  · exact absurd h (by simp)
  · rename_i r1 hm
    rcases htd : takeDigits (dropQuote (dropWs r1)) with ⟨dl, r4⟩
    rw [htd] at h
    simp only [] at h
    by_cases he : dl.isEmpty
    · rw [if_pos he] at h
      exact absurd h (by simp)
    · rw [if_neg he] at h
      simp only [Option.some.injEq, Prod.mk.injEq] at h
      obtain ⟨hd, _⟩ := h
      refine ⟨?_, ?_⟩
      · intro hempty
        apply he
        have h2 := congrArg String.data (hd.trans hempty)
        simpa using h2
      · rw [← hd]
        simp only [List.all_eq_true]
        intro c hc
        have : c ∈ (takeDigits (dropQuote (dropWs r1))).1 := by rw [htd]; exact hc
        exact takeDigits_all_digit _ c this

theorem mlAssetAt_shape {l : List Char} {d : String} {rest : List Char}
    (h : mlAssetAt l = some (d, rest)) :
    d ≠ "" ∧ d.data.all Char.isDigit = true := by
  rw [mlAssetAt] at h
  split at h
  · exact absurd h (by simp)
  · rename_i r hm
    rcases htd : takeDigits r with ⟨dl, r2⟩
    rw [htd] at h
    simp only [] at h
    by_cases he : dl.isEmpty
    · rw [if_pos he] at h
      exact absurd h (by simp)
    · rw [if_neg he] at h
      simp only [Option.some.injEq, Prod.mk.injEq] at h
      obtain ⟨hd, _⟩ := h
      refine ⟨?_, ?_⟩
      · intro hempty
        apply he
        have : dl = [] := by
          have h2 := congrArg String.data (hd.trans hempty)
          simpa using h2
        simp [this]
      · rw [← hd]
        simp only [List.all_eq_true]
        intro c hc
        have : c ∈ (takeDigits r).1 := by rw [htd]; exact hc
        exact takeDigits_all_digit r c this

/-- Every identifier produced by findAll is produced by its matcher at
some position. -/
theorem mem_findAllF {α : Type} (f : List Char → Option (α × List Char)) :
    ∀ (fuel : Nat) (l : List Char) (a : α), a ∈ findAllF f fuel l →
      ∃ l' rest, f l' = some (a, rest) := by
  intro fuel
  induction fuel with
  | zero => intro l a h; simp [findAllF] at h
  | succ n ih =>
    intro l a h
    rw [findAllF] at h
    rcases hs : searchAt f l with _ | pr
    · rw [hs] at h; simp at h
    · rw [hs] at h
      rcases List.mem_cons.mp h with h1 | h1
      · obtain ⟨l', _, hf⟩ := searchAt_eq_some f l pr hs
        exact ⟨l', pr.2, by rw [hf, h1]⟩
      · exact ih pr.2 a h1

theorem mem_findAll {α : Type} (f : List Char → Option (α × List Char))
    (s : String) (a : α) (h : a ∈ findAll f s) :
    ∃ l' rest, f l' = some (a, rest) :=
  mem_findAllF f _ s.data a h

/-- Every match of the five script patterns is a nonempty digit string. -/
theorem scriptMatches_shape (content : String) (m : String)
    (h : m ∈ scriptMatches content) : m ≠ "" ∧ m.data.all Char.isDigit = true := by
  rw [scriptMatches] at h
  simp only [List.mem_append] at h
  rcases h with ((((h | h) | h) | h) | h)
  · obtain ⟨l', rest, hf⟩ := mem_findAll _ _ _ h
    exact quotedKeyIdAt_shape hf
  · obtain ⟨l', rest, hf⟩ := mem_findAll _ _ _ h
    exact quotedKeyIdAt_shape hf
  · obtain ⟨l', rest, hf⟩ := mem_findAll _ _ _ h
    exact quotedKeyIdAt_shape hf
  · obtain ⟨l', rest, hf⟩ := mem_findAll _ _ _ h
    exact assetPathAt_shape hf
  · obtain ⟨l', rest, hf⟩ := mem_findAll _ _ _ h
    exact mlAssetAt_shape hf

/-! ### The script strategy as a filter (shared by several claims) -/

theorem script_foldl_eq (p : SearchParams) (ms : List String) (acc : List MediaRecord) :
    ms.foldl
        (fun recs m =>
          if pyIsdigit m && decide (6 ≤ m.length) then recs ++ [mkBaseRecord m p]
          else recs) acc =
      acc ++ (ms.filter (fun m => pyIsdigit m && decide (6 ≤ m.length))).map
        (fun m => mkBaseRecord m p) := by
  induction ms generalizing acc with
  | nil => simp
  | cons m t ih =>
    rw [List.foldl_cons, List.filter_cons]
    by_cases hm : (pyIsdigit m && decide (6 ≤ m.length)) = true
    · rw [if_pos hm, if_pos hm, ih, List.map_cons, List.append_assoc]
      rfl
    · rw [if_neg hm, if_neg hm, ih]

theorem extract_records_from_script_eq (content : String) (p : SearchParams) :
    extract_records_from_script content p =
      ((scriptMatches content).filter
          (fun m => pyIsdigit m && decide (6 ≤ m.length))).map
        (fun m => mkBaseRecord m p) := by
  rw [extract_records_from_script, script_foldl_eq]
  rfl

/-! ### Shape of the records each strategy emits -/

/-- The empty metadata dict leaves a record unchanged. -/
theorem applyMetadata_empty (r : MediaRecord) :
    applyMetadata r { } = r := rfl

theorem truthyAttr_ne_empty {c : Node} {key v : String}
    (h : truthyAttr c key = some v) : v ≠ "" := by
  rw [truthyAttr] at h
  split at h
  · rename_i w hw
    by_cases hv : w = ""
    · rw [if_pos hv] at h
      exact absurd h (by simp)
    · rw [if_neg hv] at h
      simp only [Option.some.injEq] at h
      exact h ▸ hv
  · exact absurd h (by simp)

theorem containerLinkId_ne_empty {c : Node} {cid : String}
    (h : containerLinkId c = some cid) : cid ≠ "" := by
  rw [containerLinkId] at h
  split at h
  · rename_i lnk hl
    rcases hh : attrGet lnk "href" with _ | href
    · rw [hh] at h; simp at h
    · rw [hh] at h
      simp only [Option.some_bind] at h
      exact (findAssetId_shape h).1
  · exact absurd h (by simp)

theorem resolve_container_id_ne_empty {c : Node} {cid : String}
    (h : resolve_container_id c = some cid) : cid ≠ "" := by
  rw [resolve_container_id] at h
  split at h
  · rename_i v hv
    simp only [Option.some.injEq] at h
    exact h ▸ truthyAttr_ne_empty hv
  · rename_i hv
    split at h
    · rename_i v2 hv2
      simp only [Option.some.injEq] at h
      exact h ▸ truthyAttr_ne_empty hv2
    · exact containerLinkId_ne_empty h

theorem linkCatalogId_ne_empty {n : Node} (h : isAssetLink n = true) :
    linkCatalogId n ≠ "" := by
  rw [isAssetLink, Bool.and_eq_true, Option.isSome_iff_exists] at h
  obtain ⟨_, d, hd⟩ := h
  rw [linkCatalogId, hd]
  rcases hh : attrGet n "href" with _ | href
  · rw [hh] at hd; simp at hd
  · rw [hh] at hd
    simp only [Option.some_bind] at hd
    exact (findAssetId_shape hd).1

/-! ### Membership and failure structure of parse_catalog_page -/

theorem extract_record_from_linkE_shape {exn : Node → Bool} {anc : List Node}
    {cid : String} {p : SearchParams} {r : MediaRecord}
    (h : extract_record_from_linkE exn anc cid p = some r) :
    ∃ m, r = applyMetadata (mkBaseRecord cid p) m := by
  simp only [extract_record_from_linkE] at h
  split at h
  · simp only [Option.some.injEq] at h
    exact ⟨{ }, by rw [← h, applyMetadata_empty]⟩
  · rename_i c hc
    rw [extract_metadata_from_containerE] at h
    by_cases he : exn c
    · rw [if_pos he] at h
      exact absurd h (by simp)
    · rw [if_neg he] at h
      simp only [Option.some.injEq] at h
      exact ⟨extract_metadata_from_container c, h.symm⟩

theorem extract_record_from_containerE_some {exn : Node → Bool} {c : Node}
    {p : SearchParams} {r : MediaRecord}
    (h : extract_record_from_containerE exn c p = .ok (some r)) :
    ∃ cid m, resolve_container_id c = some cid ∧
      r = applyMetadata (mkBaseRecord cid p) m := by
  rw [extract_record_from_containerE] at h
  split at h
  · exact absurd h (by simp)
  · rename_i cid hcid
    rw [extract_metadata_from_containerE] at h
    by_cases he : exn c
    · rw [if_pos he] at h
      exact absurd h (by simp)
    · rw [if_neg he] at h
      simp only [Except.ok.injEq, Option.some.injEq] at h
      exact ⟨cid, extract_metadata_from_container c, hcid, h.symm⟩

theorem extract_record_from_containerE_error_iff {exn : Node → Bool} {c : Node}
    {p : SearchParams} :
    extract_record_from_containerE exn c p = .error () ↔
      resolve_container_id c ≠ none ∧ exn c = true := by
  rw [extract_record_from_containerE]
  rcases hres : resolve_container_id c with _ | cid
  · simp
  · rw [extract_metadata_from_containerE]
    by_cases he : exn c
    · rw [if_pos he]
      simp [he]
    · rw [if_neg he]
      simp [he]

theorem collectContainersE_ok_mem {exn : Node → Bool} {p : SearchParams} :
    ∀ {cs : List Node} {m3 : List MediaRecord},
      collectContainersE exn p cs = .ok m3 → ∀ r ∈ m3,
        ∃ c ∈ cs, ∃ cid m, resolve_container_id c = some cid ∧
          r = applyMetadata (mkBaseRecord cid p) m := by
  intro cs
  induction cs with
  | nil =>
    intro m3 h r hr
    rw [collectContainersE] at h
    simp only [Except.ok.injEq] at h
    subst h
    simp at hr
  | cons c t ih =>
    intro m3 h r hr
    rw [collectContainersE] at h
    rcases hx : extract_record_from_containerE exn c p with e | out
    · rw [hx] at h
      exact absurd h (by simp)
    · rw [hx] at h
      rcases out with _ | r0
      · obtain ⟨c2, hc2, rest⟩ := ih h r hr
        exact ⟨c2, List.mem_cons_of_mem c hc2, rest⟩
      · rcases hy : collectContainersE exn p t with e2 | l
        · rw [hy] at h
          exact absurd h (by simp)
        · rw [hy] at h
          simp only [Except.ok.injEq] at h
          subst h
          rcases List.mem_cons.mp hr with hr0 | hrl
          · obtain ⟨cid, m, hres, hshape⟩ := extract_record_from_containerE_some hx
            exact ⟨c, List.mem_cons_self c t, cid, m, hres, hr0 ▸ hshape⟩
          · obtain ⟨c2, hc2, rest⟩ := ih hy r hrl
            exact ⟨c2, List.mem_cons_of_mem c hc2, rest⟩

theorem collectContainersE_error_iff {exn : Node → Bool} {p : SearchParams} :
    ∀ cs : List Node,
      collectContainersE exn p cs = .error () ↔
        ∃ c ∈ cs, resolve_container_id c ≠ none ∧ exn c = true := by
  intro cs
  induction cs with
  | nil =>
    rw [collectContainersE]
    simp
  | cons c t ih =>
    rw [collectContainersE]
    rcases hx : extract_record_from_containerE exn c p with e | out
    · cases e
      simp only [true_iff]
      exact ⟨c, List.mem_cons_self c t, extract_record_from_containerE_error_iff.mp hx⟩
    · have hcnot : ¬(resolve_container_id c ≠ none ∧ exn c = true) := by
        intro hcon
        have := (@extract_record_from_containerE_error_iff exn c p).mpr hcon
        rw [hx] at this
        exact absurd this (by simp)
      rcases out with _ | r0
      · rw [ih]
        constructor
        · rintro ⟨c2, hc2, hp⟩
          exact ⟨c2, List.mem_cons_of_mem c hc2, hp⟩
        · rintro ⟨c2, hc2, hp⟩
          rcases List.mem_cons.mp hc2 with h2 | h2
          · exact absurd (h2 ▸ hp) hcnot
          · exact ⟨c2, h2, hp⟩
      · rcases hy : collectContainersE exn p t with e2 | l
        · cases e2
          simp only [true_iff]
          obtain ⟨c2, hc2, hp⟩ := (ih).mp hy
          exact ⟨c2, List.mem_cons_of_mem c hc2, hp⟩
        · constructor
          · intro habs
            simp at habs
          · rintro ⟨c2, hc2, hp⟩
            exfalso
            rcases List.mem_cons.mp hc2 with h2 | h2
            · exact hcnot (h2 ▸ hp)
            · have := ih.mpr ⟨c2, h2, hp⟩
              rw [hy] at this
              exact absurd this (by simp)

theorem pyIsdigit_ne_empty {s : String} (h : pyIsdigit s = true) : s ≠ "" := by
  rw [pyIsdigit, Bool.and_eq_true] at h
  intro he
  subst he
  simp at h

/-- Every record an ok run of parse_catalog_page emits is a base record
for a non-empty catalog id with container metadata applied on top. -/
theorem mem_parse_catalog {exn : Node → Bool} {soup : Node} {p : SearchParams}
    {recs : List MediaRecord} {r : MediaRecord}
    (hok : parse_catalog_pageE exn soup p = .ok recs) (hr : r ∈ recs) :
    ∃ cid m, cid ≠ "" ∧ r = applyMetadata (mkBaseRecord cid p) m := by
  simp only [parse_catalog_pageE] at hok
  rcases hc : collectContainersE exn p (mediaContainers soup) with e | m3
  · rw [hc] at hok
    exact absurd hok (by simp)
  · rw [hc] at hok
    simp only [Except.ok.injEq] at hok
    subst hok
    have hr2 := (dedupeGo_sublist [] _).subset hr
    rcases List.mem_append.mp hr2 with h12 | h3
    · rcases List.mem_append.mp h12 with h1 | h2
      · obtain ⟨e, he, hex⟩ := List.mem_filterMap.mp h1
        have hlink : isAssetLink e.1 = true := by
          have := List.mem_filter.mp he
          simpa using this.2
        obtain ⟨m, hm⟩ := extract_record_from_linkE_shape hex
        exact ⟨linkCatalogId e.1, m, linkCatalogId_ne_empty hlink, hm⟩
      · obtain ⟨sub, hsub, hrs⟩ := List.mem_flatten.mp h2
        obtain ⟨sn, hsn, hfeq⟩ := List.mem_map.mp hsub
        rw [← hfeq] at hrs
        rcases hgs : getString sn with _ | str
        · simp only [hgs] at hrs
          simp at hrs
        · simp only [hgs] at hrs
          by_cases hstr : str = ""
          · rw [if_pos hstr] at hrs
            simp at hrs
          · rw [if_neg hstr] at hrs
            rw [extract_records_from_script_eq] at hrs
            obtain ⟨mstr, hmem, hmeq⟩ := List.mem_map.mp hrs
            have hfilter := List.of_mem_filter hmem
            rw [Bool.and_eq_true] at hfilter
            exact ⟨mstr, { }, pyIsdigit_ne_empty hfilter.1,
              by rw [← hmeq, applyMetadata_empty]⟩
    · obtain ⟨c, hcmem, cid, m, hres, hshape⟩ := collectContainersE_ok_mem hc r h3
      exact ⟨cid, m, resolve_container_id_ne_empty hres, hshape⟩

/-! ### Concrete pages used as test inputs -/

/-- A page holding one bare asset link (no surrounding container). -/
def c1soup : Node :=
  .elem "[document]" [] [.elem "a" [("href", "/asset/123456")] []]

/-- The single record extracted from c1soup with empty search
parameters. -/
def c1rec : MediaRecord := mkBaseRecord "123456" { }

/-- A page whose only content is a structural media container with a
data attribute id. -/
def c2soup : Node :=
  .elem "[document]" [] [.elem "div" [("class", "media"), ("data-asset-id", "123456")] []]

/-- The multi-strategy page of the spec scenario: an anchor link inside a
container, a script tag with an assetId field, and a structural
container with a data attribute, all naming asset 123456. -/
def c3soup : Node :=
  .elem "[document]" [] [
    .elem "div" [] [.elem "a" [("href", "/asset/123456")] [.text "photo"]],
    .elem "script" [] [.text "var x = \x7b\"assetId\": \"123456\"\x7d;"],
    .elem "div" [("class", "media-item"), ("data-asset-id", "123456")] []]

/-- Search parameters for the multi-strategy scenario. -/
def c3params : SearchParams := { mediaType := some "audio", taxonCode := some "norcar" }

/-- A page with a structural media container carrying a non-numeric
data-asset-id. -/
def c9soup : Node :=
  .elem "[document]" [] [.elem "div" [("class", "media"), ("data-asset-id", "abc")] []]

/-- The record extracted from c9soup. -/
def c9rec : MediaRecord := mkBaseRecord "abc" { }

/-! ### Claim theorems -/

/-- C1, counterexample: the claim says every missing SearchParameters key
defaults to the empty string in the emitted record, but a missing
mediaType key yields the string unknown. -/
theorem claim_C1_counterexample :
    parse_catalog_pageE (fun _ => false) c1soup { } = .ok [c1rec] ∧
      c1rec.media_type = "unknown" ∧ c1rec.media_type ≠ "" := by
  refine ⟨rfl, by decide, by decide⟩

/-- C1, amended: every record emitted by an ok run of parse_catalog_page
carries the query-derived fields copied from the SearchParameters keys
it was called with, whatever the container metadata heuristics find; a
missing regionCode, beginMonth, tag or taxonCode defaults to the empty
string, while a missing mediaType defaults to the string unknown. -/
theorem claim_C1 (exn : Node → Bool) (soup : Node) (p : SearchParams)
    (recs : List MediaRecord) (r : MediaRecord)
    (hok : parse_catalog_pageE exn soup p = .ok recs) (hr : r ∈ recs) :
    r.media_type = p.mediaType.getD "unknown" ∧
    r.region = p.regionCode.getD "" ∧
    r.search_month = p.beginMonth.getD "" ∧
    r.search_tag = p.tag.getD "" ∧
    r.species_code = p.taxonCode.getD "" := by
  obtain ⟨cid, m, _, hshape⟩ := mem_parse_catalog hok hr
  subst hshape
  simp [applyMetadata, mkBaseRecord]

/-- C1, witness. -/
theorem claim_C1_witness :
    c1rec.media_type = "unknown" ∧ c1rec.region = "" ∧ c1rec.species_code = "" := by
  have h := claim_C1 (fun _ => false) c1soup { } [c1rec] c1rec rfl
    (List.mem_singleton.mpr rfl)
  exact ⟨h.1, h.2.1, h.2.2.2.2⟩

/-- C2, counterexample: the claim says no exception from any extraction
strategy ever escapes parse_catalog_page, but when metadata extraction
raises on a structural media container the call fails. -/
theorem claim_C2_counterexample :
    parse_catalog_pageE (fun n => nodeTag n == "div") c2soup { } = .error () := by
  rfl

/-- C2, amended: a failure while extracting one anchor-link candidate is
caught at that candidate and extraction continues, but the structural
container strategy has no handler: parse_catalog_page raises exactly
when metadata extraction raises on some media container that resolved a
catalog id, and it returns a record list whenever no such container
fails. -/
theorem claim_C2 (exn : Node → Bool) (soup : Node) (p : SearchParams) :
    (parse_catalog_pageE exn soup p = .error () ↔
      ∃ c ∈ mediaContainers soup, resolve_container_id c ≠ none ∧ exn c = true) ∧
    ((∀ c ∈ mediaContainers soup, exn c = false) →
      ∃ recs, parse_catalog_pageE exn soup p = .ok recs) := by
  have hiff : parse_catalog_pageE exn soup p = .error () ↔
      ∃ c ∈ mediaContainers soup, resolve_container_id c ≠ none ∧ exn c = true := by
    simp only [parse_catalog_pageE]
    rcases hc : collectContainersE exn p (mediaContainers soup) with e | m3
    · cases e
      rw [← @collectContainersE_error_iff exn p (mediaContainers soup), hc]
    · rw [← @collectContainersE_error_iff exn p (mediaContainers soup), hc]
      simp
  refine ⟨hiff, ?_⟩
  intro hall
  rcases hv : parse_catalog_pageE exn soup p with e | recs
  · cases e
    obtain ⟨c, hcm, _, hexn⟩ := hiff.mp hv
    rw [hall c hcm] at hexn
    exact absurd hexn (by simp)
  · exact ⟨recs, rfl⟩

/-- C2, witness. -/
theorem claim_C2_witness :
    ∃ recs, parse_catalog_pageE (fun _ => false) c2soup { } = .ok recs := by
  exact (claim_C2 (fun _ => false) c2soup { }).2 (fun c hc => rfl)

/-- C3: on a page carrying the same asset id through an anchor link, an
embedded script and a structural container, parse_catalog_page returns
exactly one record, with that catalog id. -/
theorem claim_C3 :
    parse_catalog_pageE (fun _ => false) c3soup c3params = .ok [mkBaseRecord "123456" c3params] ∧
      (mkBaseRecord "123456" c3params).catalog_id = "123456" := by
  refine ⟨rfl, by decide⟩

/-- C4: deduplication is idempotent, keeps a subsequence of its input
(so output order is input order), emits pairwise distinct catalog ids,
and keeps exactly the records no earlier record shares an id with (so
the first-seen record of each id wins wholesale). -/
theorem claim_C4 (l : List MediaRecord) :
    dedupeRecords (dedupeRecords l) = dedupeRecords l ∧
    List.Sublist (dedupeRecords l) l ∧
    ((dedupeRecords l).map MediaRecord.catalog_id).Nodup ∧
    ∀ r : MediaRecord,
      r ∈ dedupeRecords l ↔
        ∃ l1 l2, l = l1 ++ r :: l2 ∧
          r.catalog_id ∉ l1.map MediaRecord.catalog_id := by
  refine ⟨dedupeRecords_idem l, dedupeGo_sublist [] l, (dedupeGo_ids_nodup [] l).1, ?_⟩
  intro r
  rw [dedupeRecords, mem_dedupeGo]
  simp

/-- C9, counterexample: the claim says every emitted record has an
all-digit catalog id, but a container data-asset-id value is copied
verbatim, digits or not. -/
theorem claim_C9_counterexample :
    parse_catalog_pageE (fun _ => false) c9soup { } = .ok [c9rec] ∧
      c9rec.catalog_id.data.all Char.isDigit = false := by
  refine ⟨rfl, by decide⟩

/-- C9, amended: every record of an ok run has a non-empty catalog id,
its url is the asset prefix followed by that id, and no two records of
one run share a catalog id; ids taken from container data attributes are
copied verbatim and need not be digit strings. -/
theorem claim_C9 (exn : Node → Bool) (soup : Node) (p : SearchParams)
    (recs : List MediaRecord)
    (hok : parse_catalog_pageE exn soup p = .ok recs) :
    (∀ r ∈ recs, r.catalog_id ≠ "" ∧
      r.url = "https://macaulaylibrary.org/asset/" ++ r.catalog_id) ∧
    (recs.map MediaRecord.catalog_id).Nodup := by
  constructor
  · intro r hr
    obtain ⟨cid, m, hne, hshape⟩ := mem_parse_catalog hok hr
    subst hshape
    refine ⟨by simpa [applyMetadata, mkBaseRecord] using hne, ?_⟩
    simp [applyMetadata, mkBaseRecord]
  · simp only [parse_catalog_pageE] at hok
    rcases hc : collectContainersE exn p (mediaContainers soup) with e | m3
    · rw [hc] at hok
      exact absurd hok (by simp)
    · rw [hc] at hok
      simp only [Except.ok.injEq] at hok
      subst hok
      exact (dedupeGo_ids_nodup [] _).1

/-- C9, witness. -/
theorem claim_C9_witness :
    c1rec.catalog_id ≠ "" ∧
      c1rec.url = "https://macaulaylibrary.org/asset/" ++ c1rec.catalog_id := by
  exact (claim_C9 (fun _ => false) c1soup { } [c1rec] rfl).1 c1rec
    (List.mem_singleton.mpr rfl)

/-- C5: the embedded-script strategy emits exactly one record per pattern
match whose matched string is all digits and at least six characters
long, every emitted record has empty metadata fields, a script with a
two-digit id yields nothing and one with a six-digit id yields one
record. -/
theorem claim_C5 (content : String) (p : SearchParams) :
    extract_records_from_script content p =
      ((scriptMatches content).filter
          (fun m => pyIsdigit m && decide (6 ≤ m.length))).map
        (fun m => mkBaseRecord m p) ∧
    (∀ r ∈ extract_records_from_script content p,
      r.common_name = "" ∧ r.scientific_name = "" ∧ r.location = "" ∧
        r.date = "" ∧ r.recordist = "") ∧
    extract_records_from_script "var x = \x7b\"id\": \"42\"\x7d;" p = [] ∧
    extract_records_from_script "var x = \x7b\"id\": \"424242\"\x7d;" p =
      [mkBaseRecord "424242" p] := by
  refine ⟨extract_records_from_script_eq content p, ?_, rfl, rfl⟩
  intro r hr
  rw [extract_records_from_script_eq] at hr
  obtain ⟨m, _, hmeq⟩ := List.mem_map.mp hr
  rw [← hmeq]
  exact ⟨rfl, rfl, rfl, rfl, rfl⟩

/-- C5, witness. -/
theorem claim_C5_witness :
    extract_records_from_script "var x = \x7b\"id\": \"424242\"\x7d;" { } =
      [mkBaseRecord "424242" { }] ∧
    (mkBaseRecord "424242" ({ } : SearchParams)).common_name = "" := by
  have h := claim_C5 "var x = \x7b\"id\": \"424242\"\x7d;" { }
  refine ⟨h.2.2.2, (h.2.1 (mkBaseRecord "424242" { }) ?_).1⟩
  rw [h.2.2.2]
  exact List.mem_singleton.mpr rfl

/-- Modelled from the spec wording of the result-count scan, for
comparison with the code: stop at the first of the three patterns that
matches and extract the last captured group that is present, that is the
third group of the range pattern and the second group, when present, of
the two-group patterns. -/
def total_results_last_group (s : String) : Option Nat :=
  match searchAt countPat1At s.data with
  | some (_, g2) => g2.map pyIntNat
  | none =>
    match searchAt countPat2At s.data with
    | some (_, g2) => g2.map pyIntNat
    | none =>
      match searchAt countPat3At s.data with
      | some (_, _, g3) => some (pyIntNat g3)
      | none => none

/-- A match of the range pattern contains, from its second digit run on,
a match of the first result-count pattern whose two captures are the
last two captures of the range match. -/
theorem countPat3At_gives_pat1 {l : List Char} {d1 d2 d3 : String}
    (h : countPat3At l = some (d1, d2, d3)) :
    ∃ l', l' <:+ l ∧ countPat1At l' = some (d2, some d3) := by
  rw [countPat3At] at h
  rcases htd1 : takeDigits l with ⟨dl1, r1⟩
  rw [htd1] at h
  simp only [] at h
  by_cases he1 : dl1.isEmpty
  · rw [if_pos he1] at h
    exact absurd h (by simp)
  · rw [if_neg he1] at h
    split at h
    next r2 hdw =>
      rcases htd2 : takeDigits (dropWs r2) with ⟨dl2, r3⟩
      rw [htd2] at h
      simp only [] at h
      by_cases he2 : dl2.isEmpty
      · rw [if_pos he2] at h
        exact absurd h (by simp)
      · rw [if_neg he2] at h
        rcases hof : matchLitCI "of".data (dropWs r3) with _ | r4
        · rw [hof] at h
          simp at h
        · rw [hof] at h
          simp only [] at h
          rcases htd3 : takeDigits (dropWs r4) with ⟨dl3, r5⟩
          rw [htd3] at h
          simp only [] at h
          by_cases he3 : dl3.isEmpty
          · rw [if_pos he3] at h
            exact absurd h (by simp)
          · rw [if_neg he3] at h
            by_cases hres : (matchLitCI "result".data (dropWs r5)).isSome
            · rw [if_pos hres] at h
              simp only [Option.some.injEq, Prod.mk.injEq] at h
              obtain ⟨hq1, hq2, hq3⟩ := h
              refine ⟨dropWs r2, ?_, ?_⟩
              · have s1 : dropWs r2 <:+ r2 := dropWs_isSuffix r2
                have s2 : r2 <:+ '-' :: r2 := List.suffix_cons '-' r2
                have s3 : ('-' :: r2) <:+ r1 := hdw ▸ dropWs_isSuffix r1
                have s4 : r1 <:+ l := by
                  have := takeDigits_snd_isSuffix l
                  rw [htd1] at this
                  exact this
                exact ((s1.trans s2).trans s3).trans s4
              · rw [countPat1At, htd2]
                simp only []
                rw [if_neg he2, hof]
                simp only []
                rw [htd3]
                simp only []
                rw [if_neg (by simpa using he3), if_pos hres]
                rw [hq2, hq3]
            · rw [if_neg hres] at h
              exact absurd h (by simp)
    next x hne => exact absurd h (by simp)

/-- Python max over a nonempty list is a member and an upper bound. -/
theorem foldl_max_spec (t : List Nat) (h : Nat) :
    t.foldl Nat.max h ∈ h :: t ∧ ∀ x ∈ h :: t, x ≤ t.foldl Nat.max h := by
  induction t generalizing h with
  | nil =>
    refine ⟨by simp, ?_⟩
    intro x hx
    simp only [List.mem_singleton] at hx
    simp [List.foldl, hx]
  | cons a t ih =>
    rw [List.foldl_cons]
    obtain ⟨hmem, hub⟩ := ih (Nat.max h a)
    constructor
    · rcases List.mem_cons.mp hmem with hm | hm
      · rw [hm]
        have hor : h.max a = h ∨ h.max a = a := by
          by_cases hle : h ≤ a
          · exact Or.inr (if_pos hle)
          · exact Or.inl (if_neg hle)
        rcases hor with h2 | h2 <;> rw [h2]
        · exact List.mem_cons_self h (a :: t)
        · exact List.mem_cons_of_mem h (List.mem_cons_self a t)
      · exact List.mem_cons_of_mem h (List.mem_cons_of_mem a hm)
    · intro x hx
      rcases List.mem_cons.mp hx with hx1 | hx1
      · subst hx1
        exact le_trans (Nat.le_max_left x a) (hub _ (List.mem_cons_self _ _))
      · rcases List.mem_cons.mp hx1 with hx2 | hx2
        · subst hx2
          exact le_trans (Nat.le_max_right h x) (hub _ (List.mem_cons_self _ _))
        · exact hub x (List.mem_cons_of_mem _ hx2)

/-- The next-indicator element filter, spelled as a proposition. -/
theorem nextIndicator_pred_iff (n : Node) :
    ((nodeTag n = "a" || nodeTag n = "button") &&
      (match getString n with
       | some s => nextStringMatches s
       | none => false)) = true ↔
    ((nodeTag n = "a" ∨ nodeTag n = "button") ∧
      ∃ s, getString n = some s ∧ nextStringMatches s = true) := by
  rcases hg : getString n with _ | s
  · simp [hg]
  · simp [hg]

/-- The pagination example of the spec scenario: one container with
numbered links and a next link. -/
def c7soup : Node :=
  .elem "[document]" [] [
    .elem "div" [("class", "pagination")] [
      .elem "a" [("href", "?page=1")] [.text "1"],
      .elem "a" [("href", "?page=2")] [.text "2"],
      .elem "a" [("href", "?page=3")] [.text "3"],
      .elem "a" [("href", "?page=2")] [.text "Next"]]]

/-- Two pagination candidates: the first matching container has only
numbered links, a later one has the next indicator. -/
def c7soup2 : Node :=
  .elem "[document]" [] [
    .elem "div" [("class", "pagination")] [
      .elem "a" [] [.text "1"],
      .elem "a" [] [.text "2"]],
    .elem "div" [("class", "pager")] [
      .elem "a" [] [.text "Next"],
      .elem "a" [] [.text "9"]]]

/-- C7: within the first pagination container found (and only that one),
has_next_page is set exactly when some link or button string matches the
next indicators, and total_pages is the maximum over the purely numeric
link texts, left unresolved when there are none; with no container both
signals stay at their defaults, and the second concrete page shows that
later candidate containers are ignored. -/
theorem claim_C7 :
    (∀ soup : Node,
      (pagination_container soup = none →
        (detect_pagination_info soup).has_next_page = false ∧
        (detect_pagination_info soup).total_pages = none) ∧
      (∀ c, pagination_container soup = some c →
        ((detect_pagination_info soup).has_next_page = true ↔
          ((∃ n ∈ descendants c, (nodeTag n = "a" ∨ nodeTag n = "button") ∧
            ∃ s, getString n = some s ∧ nextStringMatches s = true))) ∧
        ((detect_pagination_info soup).total_pages = none ↔ pageLinks c = []) ∧
        (∀ m, (detect_pagination_info soup).total_pages = some m →
          m ∈ (pageLinks c).map (fun l => pyIntNat (getText l)) ∧
          ∀ x ∈ (pageLinks c).map (fun l => pyIntNat (getText l)), x ≤ m))) ∧
    (detect_pagination_info c7soup).has_next_page = true ∧
    (detect_pagination_info c7soup).total_pages = some 3 ∧
    (detect_pagination_info c7soup2).has_next_page = false ∧
    (detect_pagination_info c7soup2).total_pages = some 2 := by
  refine ⟨?_, by decide, by decide, by decide, by decide⟩
  intro soup
  constructor
  · intro hnone
    simp [detect_pagination_info, hnone]
  · intro c hsome
    have hnext : (detect_pagination_info soup).has_next_page =
        !(nextIndicators c).isEmpty := by
      simp only [detect_pagination_info, hsome]
      rcases hpl : pageLinks c with _ | ⟨x, xs⟩ <;> simp [hpl]
    refine ⟨?_, ?_, ?_⟩
    · rw [hnext]
      constructor
      · intro hne
        have : nextIndicators c ≠ [] := by
          intro hemp
          rw [hemp] at hne
          simp at hne
        obtain ⟨n, hn⟩ := List.exists_mem_of_ne_nil _ this
        have hmem := List.mem_filter.mp hn
        exact ⟨n, hmem.1, (nextIndicator_pred_iff n).mp hmem.2⟩
      · rintro ⟨n, hn, hpred⟩
        have : n ∈ nextIndicators c :=
          List.mem_filter.mpr ⟨hn, (nextIndicator_pred_iff n).mpr hpred⟩
        rcases hni : nextIndicators c with _ | ⟨y, ys⟩
        · rw [hni] at this
          simp at this
        · simp
    · simp only [detect_pagination_info, hsome]
      rcases hpl : pageLinks c with _ | ⟨x, xs⟩ <;> simp [hpl, pageNumbersMax]
    · intro m hm
      simp only [detect_pagination_info, hsome] at hm
      rcases hpl : pageLinks c with _ | ⟨x, xs⟩
      · rw [hpl] at hm
        simp at hm
      · rw [hpl] at hm
        simp only [List.map_cons, pageNumbersMax, Option.some.injEq] at hm
        obtain ⟨hmem, hub⟩ :=
          foldl_max_spec (xs.map (fun l => pyIntNat (getText l))) (pyIntNat (getText x))
        rw [hm] at hmem hub
        exact ⟨by simpa using hmem, by intro x2 hx2; exact hub x2 (by simpa using hx2)⟩

/-- C7, witness. -/
theorem claim_C7_witness :
    (detect_pagination_info (Node.elem "[document]" [] [])).has_next_page = false ∧
    (detect_pagination_info (Node.elem "[document]" [] [])).total_pages = none :=
  (claim_C7.1 (Node.elem "[document]" [] [])).1 rfl

/-- C6: the result-count scan stops at the first matching pattern and its
extracted total agrees everywhere with the last-present-captured-group
reading of the spec; the two example texts give 342 and no total. -/
theorem claim_C6 :
    (∀ s : String, total_results_of_text s = total_results_last_group s) ∧
    (∀ soup : Node,
      (detect_pagination_info soup).total_results =
        total_results_of_text (getText soup)) ∧
    total_results_of_text "Showing 1-50 of 342 results" = some 342 ∧
    total_results_of_text "300 results found" = none ∧
    (detect_pagination_info
        (Node.elem "[document]" [] [Node.text "Showing 1-50 of 342 results"])).total_results =
      some 342 := by
  refine ⟨?_, ?_, by decide, by decide, by decide⟩
  · intro s
    rw [total_results_of_text, total_results_last_group]
    rcases h1 : searchAt countPat1At s.data with _ | g1
    · rcases h2 : searchAt countPat2At s.data with _ | g2
      · rcases h3 : searchAt countPat3At s.data with _ | g3
        · rfl
        · exfalso
          obtain ⟨l', hsuf, hf⟩ := searchAt_eq_some countPat3At s.data g3 h3
          rcases g3 with ⟨d1, d2, d3⟩
          obtain ⟨l2, hsuf2, hp1⟩ := countPat3At_gives_pat1 hf
          have := searchAt_isSome_of_suffix countPat1At (hsuf2.trans hsuf) hp1
          rw [h1] at this
          exact absurd this (by simp)
      · rfl
    · rfl
  · intro soup
    rfl

/-! ### Lemmas about the detail-page extractor -/

theorem getTextStripE_ok {exn : Node → Bool} {e : Node} {t : String}
    (h : getTextStripE exn e = .ok t) : exn e = false ∧ t = getTextStrip e := by
  rw [getTextStripE] at h
  by_cases hx : exn e
  · rw [if_pos hx] at h
    exact absurd h (by simp)
  · rw [if_neg hx] at h
    simp only [Except.ok.injEq] at h
    exact ⟨by simpa using hx, h.symm⟩

theorem metaLoopE_ok_facts {exn : Node → Bool} :
    ∀ (l : List Node) (r r' : AssetRecord), metaLoopE exn l r = .ok r' →
      (∀ e ∈ l, metaCatMatch e = true → exn e = false) ∧
      metaLoopE (fun _ => false) l r = .ok r' ∧
      (r'.quality = r.quality ∧ r'.tags = r.tags ∧ r'.description = r.description ∧
        r'.media_type = r.media_type) := by
  intro l
  induction l with
  | nil =>
    intro r r' h
    rw [metaLoopE] at h
    simp only [Except.ok.injEq] at h
    subst h
    exact ⟨by simp, rfl, rfl, rfl, rfl, rfl⟩
  | cons e0 t ih =>
    intro r r' h
    rw [metaLoopE] at h
    by_cases h1 : isSubstr "location" (propOf e0)
    · rw [if_pos h1] at h
      rcases hg : getTextStripE exn e0 with u | txt
      · rw [hg] at h
        exact absurd h (by simp)
      · rw [hg] at h
        obtain ⟨hx0, htxt⟩ := getTextStripE_ok hg
        obtain ⟨hall, hff, hpres⟩ := ih _ _ h
        refine ⟨?_, ?_, hpres⟩
        · intro e he _
          rcases List.mem_cons.mp he with he0 | het
          · exact he0 ▸ hx0
          · exact hall e het (by assumption)
        · rw [metaLoopE, if_pos h1]
          have : getTextStripE (fun _ => false) e0 = .ok txt := by
            rw [getTextStripE, if_neg (by simp), htxt]
          rw [this]
          exact hff
    · rw [if_neg h1] at h
      by_cases h2 : isSubstr "date" (propOf e0)
      · rw [if_pos h2] at h
        rcases hg : getTextStripE exn e0 with u | txt
        · rw [hg] at h
          exact absurd h (by simp)
        · rw [hg] at h
          obtain ⟨hx0, htxt⟩ := getTextStripE_ok hg
          obtain ⟨hall, hff, hpres⟩ := ih _ _ h
          refine ⟨?_, ?_, hpres⟩
          · intro e he _
            rcases List.mem_cons.mp he with he0 | het
            · exact he0 ▸ hx0
            · exact hall e het (by assumption)
          · rw [metaLoopE, if_neg h1, if_pos h2]
            have : getTextStripE (fun _ => false) e0 = .ok txt := by
              rw [getTextStripE, if_neg (by simp), htxt]
            rw [this]
            exact hff
      · rw [if_neg h2] at h
        by_cases h3 : (isSubstr "creator" (propOf e0) || isSubstr "author" (propOf e0)) = true
        · rw [if_pos h3] at h
          rcases hg : getTextStripE exn e0 with u | txt
          · rw [hg] at h
            exact absurd h (by simp)
          · rw [hg] at h
            obtain ⟨hx0, htxt⟩ := getTextStripE_ok hg
            obtain ⟨hall, hff, hpres⟩ := ih _ _ h
            refine ⟨?_, ?_, hpres⟩
            · intro e he _
              rcases List.mem_cons.mp he with he0 | het
              · exact he0 ▸ hx0
              · exact hall e het (by assumption)
            · rw [metaLoopE, if_neg h1, if_neg h2, if_pos h3]
              have : getTextStripE (fun _ => false) e0 = .ok txt := by
                rw [getTextStripE, if_neg (by simp), htxt]
              rw [this]
              exact hff
        · rw [if_neg h3] at h
          obtain ⟨hall, hff, hpres⟩ := ih _ _ h
          refine ⟨?_, ?_, hpres⟩
          · intro e he hcat
            rcases List.mem_cons.mp he with he0 | het
            · subst he0
              exfalso
              rw [metaCatMatch] at hcat
              simp only [Bool.or_eq_true] at hcat
              rcases hcat with (hc | hc) | hc
              · exact h1 hc
              · exact h2 hc
              · exact h3 (by simpa using hc)
            · exact hall e het hcat
          · rw [metaLoopE, if_neg h1, if_neg h2, if_neg h3]
            exact hff

theorem speciesStepE_ok_facts {exn : Node → Bool} {soup : Node} {r r' : AssetRecord}
    (h : speciesStepE exn soup r = .ok r') :
    (∀ e, speciesElem soup = some e → exn e = false) ∧
    speciesStepE (fun _ => false) soup r = .ok r' ∧
    (r'.quality = r.quality ∧ r'.tags = r.tags ∧ r'.description = r.description ∧
      r'.media_type = r.media_type) := by
  rcases hsp : speciesElem soup with _ | e0
  · simp only [speciesStepE, hsp, Except.ok.injEq] at h
    subst h
    exact ⟨by intro e he; exact absurd he (by simp), by rw [speciesStepE, hsp], rfl, rfl, rfl, rfl⟩
  · simp only [speciesStepE, hsp] at h
    rcases hg : getTextStripE exn e0 with u | txt
    · rw [hg] at h
      exact absurd h (by simp)
    · rw [hg] at h
      simp only [Except.ok.injEq] at h
      obtain ⟨hx0, htxt⟩ := getTextStripE_ok hg
      subst htxt
      refine ⟨?_, ?_, ?_⟩
      · intro e he
        simp only [Option.some.injEq] at he
        exact he ▸ hx0
      · rw [speciesStepE, hsp]
        exact congrArg Except.ok h
      · rw [← h]
        exact ⟨rfl, rfl, rfl, rfl⟩

theorem sciStepE_ok_facts {exn : Node → Bool} {soup : Node} {r r' : AssetRecord}
    (h : sciStepE exn soup r = .ok r') :
    (∀ e, sciNameElem soup = some e → exn e = false) ∧
    sciStepE (fun _ => false) soup r = .ok r' ∧
    (r'.quality = r.quality ∧ r'.tags = r.tags ∧ r'.description = r.description ∧
      r'.media_type = r.media_type) := by
  rcases hsp : sciNameElem soup with _ | e0
  · simp only [sciStepE, hsp, Except.ok.injEq] at h
    subst h
    exact ⟨by intro e he; exact absurd he (by simp), by rw [sciStepE, hsp], rfl, rfl, rfl, rfl⟩
  · simp only [sciStepE, hsp] at h
    rcases hg : getTextStripE exn e0 with u | txt
    · rw [hg] at h
      exact absurd h (by simp)
    · rw [hg] at h
      simp only [Except.ok.injEq] at h
      obtain ⟨hx0, htxt⟩ := getTextStripE_ok hg
      subst htxt
      refine ⟨?_, ?_, ?_⟩
      · intro e he
        simp only [Option.some.injEq] at he
        exact he ▸ hx0
      · rw [sciStepE, hsp]
        exact congrArg Except.ok h
      · rw [← h]
        exact ⟨rfl, rfl, rfl, rfl⟩

/-- Everything an ok run of the detail-page body guarantees: no read
element raised, the failure-free run returns the same record, and the
fields no heuristic writes still hold their initial values. -/
theorem parse_asset_bodyE_facts {exn : Node → Bool} {soup : Node}
    {catalog_id : String} {r' : AssetRecord}
    (h : parse_asset_bodyE exn soup catalog_id = .ok r') :
    (∀ e ∈ assetReadElems soup, exn e = false) ∧
    parse_asset_bodyE (fun _ => false) soup catalog_id = .ok r' ∧
    (r'.quality = "" ∧ r'.tags = [] ∧ r'.description = "" ∧ r'.media_type = "") := by
  rw [parse_asset_bodyE] at h
  split at h
  · exact absurd h (by simp)
  · rename_i r1 h1
    split at h
    · exact absurd h (by simp)
    · rename_i r2 h2
      obtain ⟨hsp, hspff, hpres1⟩ := speciesStepE_ok_facts h1
      obtain ⟨hsc, hscff, hpres2⟩ := sciStepE_ok_facts h2
      obtain ⟨hloop, hloopff, hpres3⟩ := metaLoopE_ok_facts (metaElems soup) r2 r' h
      refine ⟨?_, ?_, ?_⟩
      · intro e he
        rw [assetReadElems] at he
        rcases List.mem_append.mp he with h12 | h3
        · rcases List.mem_append.mp h12 with ha | hb
          · rcases Option.mem_toList.mp ha with hmem
            exact hsp e (Option.mem_def.mp hmem)
          · rcases Option.mem_toList.mp hb with hmem
            exact hsc e (Option.mem_def.mp hmem)
        · have hmf := List.mem_filter.mp h3
          exact hloop e hmf.1 hmf.2
      · rw [parse_asset_bodyE, hspff]
        show (match sciStepE (fun _ => false) soup r1 with
          | .error u => Except.error u
          | .ok r2 => metaLoopE (fun _ => false) (metaElems soup) r2) = Except.ok r'
        rw [hscff]
        exact hloopff
      · have q1 : (initAssetRecord catalog_id).quality = "" := rfl
        have q2 : (initAssetRecord catalog_id).tags = ([] : List String) := rfl
        have q3 : (initAssetRecord catalog_id).description = "" := rfl
        have q4 : (initAssetRecord catalog_id).media_type = "" := rfl
        obtain ⟨a1, a2, a3, a4⟩ := hpres1
        obtain ⟨b1, b2, b3, b4⟩ := hpres2
        obtain ⟨c1, c2, c3, c4⟩ := hpres3
        exact ⟨by rw [c1, b1, a1]; exact q1, by rw [c2, b2, a2]; exact q2,
          by rw [c3, b3, a3]; exact q3, by rw [c4, b4, a4]; exact q4⟩

/-- A detail page used as concrete input. -/
def c8soup : Node :=
  .elem "[document]" [] [
    .elem "h1" [] [.text "Northern Cardinal"],
    .elem "div" [("class", "scientific-name")] [.text "Cardinalis cardinalis"]]

/-- C8: the detail-page extractor returns the absent signal whenever any
field-extraction read raises, and when it does return a record that
record is the one the failure-free extraction computes, never a
partially filled one. -/
theorem claim_C8 (exn : Node → Bool) (soup : Node) (catalog_id : String) :
    ((∃ e ∈ assetReadElems soup, exn e = true) →
      parse_asset_pageE exn soup catalog_id = none) ∧
    (∀ r, parse_asset_pageE exn soup catalog_id = some r →
      parse_asset_page soup catalog_id = some r) := by
  constructor
  · rintro ⟨e, he, hexn⟩
    rw [parse_asset_pageE]
    rcases hb : parse_asset_bodyE exn soup catalog_id with u | r0
    · rfl
    · exfalso
      have := (parse_asset_bodyE_facts hb).1 e he
      rw [hexn] at this
      exact absurd this (by simp)
  · intro r h
    rw [parse_asset_pageE] at h
    rcases hb : parse_asset_bodyE exn soup catalog_id with u | r0
    · rw [hb] at h
      exact absurd h (by simp)
    · rw [hb] at h
      simp only [Option.some.injEq] at h
      subst h
      rw [parse_asset_page, parse_asset_pageE, (parse_asset_bodyE_facts hb).2.1]

/-- C8, witness. -/
theorem claim_C8_witness :
    parse_asset_pageE (fun n => nodeTag n == "h1") c8soup "777" = none := by
  refine (claim_C8 (fun n => nodeTag n == "h1") c8soup "777").1 ?_
  refine ⟨Node.elem "h1" [] [Node.text "Northern Cardinal"], ?_, by decide⟩
  exact List.Mem.head _

/-- C10: whenever the detail-page extractor returns a record, the
quality, tags, description and media_type fields still hold their
initial defaults; no heuristic of parse_asset_page writes them. -/
theorem claim_C10 (exn : Node → Bool) (soup : Node) (catalog_id : String)
    (r : AssetRecord) (h : parse_asset_pageE exn soup catalog_id = some r) :
    r.quality = "" ∧ r.tags = [] ∧ r.description = "" ∧ r.media_type = "" := by
  rw [parse_asset_pageE] at h
  rcases hb : parse_asset_bodyE exn soup catalog_id with u | r0
  · rw [hb] at h
    exact absurd h (by simp)
  · rw [hb] at h
    simp only [Option.some.injEq] at h
    subst h
    exact (parse_asset_bodyE_facts hb).2.2

/-- The record the failure-free run extracts from the concrete detail
page. -/
def c8rec : AssetRecord :=
  { initAssetRecord "777" with
    common_name := "Northern Cardinal"
    scientific_name := "Cardinalis cardinalis" }

/-- C10, witness. -/
theorem claim_C10_witness :
    c8rec.quality = "" ∧ c8rec.tags = [] ∧ c8rec.description = "" ∧
      c8rec.media_type = "" :=
  claim_C10 (fun _ => false) c8soup "777" c8rec rfl

end MacaulayLookup
